import Mathlib

/-!
Verification of the karl-chat repository: a shallow embedding of the
configuration loader (backend/config.js), the Neo4j metadata utilities
(backend/utils/neo4j-utils.js), and the RAG server (thinking-response
extraction, initialization routine and chat endpoint guards).
-/

/-- JSON values, the dynamic values JavaScript code in this repository
manipulates: strings, numbers, booleans, null, arrays and objects.
Numbers are modelled as integers (every number occurring in the
repository's configuration and metadata is integral). -/
inductive JValue where
  | str (s : String)
  | num (n : Int)
  | bool (b : Bool)
  | null
  | arr (elems : List JValue)
  | obj (fields : List (String × JValue))

/-- A JavaScript object, modelled as an insertion-ordered association list. -/
abbrev JObject := List (String × JValue)

/-- JavaScript truthiness of a `JValue` (`'' `, `0`, `false`, `null` are falsy;
objects and arrays are always truthy). -/
def truthy : JValue → Bool
  | .str s => s != ""
  | .num n => n != 0
  | .bool b => b
  | .null => false
  | .arr _ => true
  | .obj _ => true

/-- Truthiness of `obj[key]` where a missing key (`undefined`) is falsy. -/
def truthyOpt : Option JValue → Bool
  | some v => truthy v
  | none => false

/-- Property lookup `obj[key]` on the object model. -/
def objGet (m : JObject) (k : String) : Option JValue :=
  (m.find? (fun p => p.1 == k)).map (fun p => p.2)

/-- Property assignment `obj[key] = v`: replaces the value in place if the
key exists, otherwise appends the new key (JavaScript insertion order). -/
def objSet (m : JObject) (k : String) (v : JValue) : JObject :=
  if m.any (fun p => p.1 == k) then
    m.map (fun p => if p.1 == k then (k, v) else p)
  else
    m ++ [(k, v)]

/-- Left-biased choice on `Option`, the lookup semantics of an override. -/
def por {α : Type} : Option α → Option α → Option α
  | some v, _ => some v
  | none, b => b

/-- The last `some` in a list of options (later assignments win). -/
def lastSome {α : Type} (l : List (Option α)) : Option α :=
  l.foldl (fun acc o => por o acc) none

/-- The value the assignment sequence of `l` leaves at key `k`
(last binding of `k` in `l`, if any). -/
def findLast (l : JObject) (k : String) : Option JValue :=
  lastSome (l.map (fun p => if p.1 = k then some p.2 else none))

/-- Fold a list of key/value pairs into an object by assignment; the
semantics of the object-spread `\x7b...cfg, ...other\x7d`. -/
def objFold (cfg : JObject) (l : JObject) : JObject :=
  l.foldl (fun acc p => objSet acc p.1 p.2) cfg

/-- The own enumerable properties contributed by `...v` inside an object
literal: an object's fields; index/character pairs for arrays and strings;
nothing for numbers, booleans and null. -/
def spreadFields : JValue → JObject
  | .obj fs => fs
  | .arr xs => xs.enum.map (fun p => (toString p.1, p.2))
  | .str s => s.toList.enum.map (fun p => (toString p.1, JValue.str (String.mk [p.2])))
  | _ => []

/-- `\x7b...cfg, ...v\x7d`: merge the spread of `v` over `cfg`. -/
def spreadMerge (cfg : JObject) (v : JValue) : JObject :=
  objFold cfg (spreadFields v)

/-- Property access `v[key]` on a parsed JSON value (an object's field;
`undefined` on every non-object in the cases this repository exercises). -/
def jGet : JValue → String → Option JValue
  | .obj fs, k => objGet fs k
  | _, _ => none

/-- The outcome of probing one candidate configuration file:
the file is absent, it exists but `JSON.parse` throws, or it parses to `v`. -/
inductive FileResult where
  | missing
  | malformed
  | parsed (v : JValue)

/-- `ConfigLoader.getDefaults` (backend/config.js): built-in defaults. -/
def getDefaults : JObject :=
  [("OLLAMA_HOST", JValue.str "localhost"),
   ("OLLAMA_PORT", JValue.str "11434"),
   ("DEFAULT_MODEL", JValue.str "llama3.2"),
   ("NEO4J_URI", JValue.str "bolt://localhost:7687"),
   ("NEO4J_USERNAME", JValue.str "neo4j"),
   ("NEO4J_PASSWORD", JValue.str "password"),
   ("SERVER_PORT", JValue.num 5000),
   ("CORS_ORIGIN", JValue.str "http://localhost:3000"),
   ("LOG_LEVEL", JValue.str "info")]

/-- One level of `ConfigLoader.loadParentConfigs`: a missing or malformed
`config.json` is skipped; a parsed one is spread over the accumulated
config, and if it has a truthy module-specific section, that section is
spread on top of it. -/
def parentStep (moduleName : String) (cfg : JObject) (f : FileResult) : JObject :=
  match f with
  | .parsed v =>
    let c1 := spreadMerge cfg v
    match jGet v moduleName with
    | some sec => if truthy sec then spreadMerge c1 sec else c1
    | none => c1
  | _ => cfg

/-- `ConfigLoader.loadParentConfigs`: walk up to `maxLevels = 5` ancestor
directories, merging each discovered `config.json` in walking order
(nearest parent first). `parents` lists the ancestors' file outcomes,
nearest first. -/
def loadParentConfigs (moduleName : String) (cfg : JObject) (parents : List FileResult) : JObject :=
  (parents.take 5).foldl (parentStep moduleName) cfg

/-- `ConfigLoader.loadLocalConfig`: probe the candidate paths in order;
the first successfully parsed file is merged and stops the search, while a
file that exists but fails to parse is logged and the search continues. -/
def loadLocalConfig (cfg : JObject) : List FileResult → JObject
  | [] => cfg
  | .parsed v :: _ => spreadMerge cfg v
  | _ :: rest => loadLocalConfig cfg rest

/-- The fixed translation table of `ConfigLoader.loadEnvironmentConfig`:
configuration key to environment variable name. -/
def envMapping : List (String × String) :=
  [("OLLAMA_HOST", "OLLAMA_HOST"),
   ("OLLAMA_PORT", "OLLAMA_PORT"),
   ("DEFAULT_MODEL", "DEFAULT_MODEL"),
   ("NEO4J_URI", "NEO4J_URI"),
   ("NEO4J_USERNAME", "NEO4J_USERNAME"),
   ("NEO4J_PASSWORD", "NEO4J_PASSWORD"),
   ("SERVER_PORT", "PORT"),
   ("CORS_ORIGIN", "CORS_ORIGIN"),
   ("LOG_LEVEL", "LOG_LEVEL")]

/-- One entry of `loadEnvironmentConfig`'s loop: the variable participates
only when `process.env[envKey]` is truthy (set and non-empty). -/
def envStep (env : String → Option String) (cfg : JObject) (p : String × String) : JObject :=
  match env p.2 with
  | some s => if s != "" then objSet cfg p.1 (JValue.str s) else cfg
  | none => cfg

/-- `ConfigLoader.loadEnvironmentConfig`: overlay the mapped environment
variables (highest precedence). `env` models `process.env`. -/
def loadEnvironmentConfig (cfg : JObject) (env : String → Option String) : JObject :=
  envMapping.foldl (envStep env) cfg

/-- `ConfigLoader.loadConfig`: defaults, then parent-directory configs,
then the local config, then environment variables. -/
def loadConfig (moduleName : String) (parents : List FileResult)
    (localFiles : List FileResult) (env : String → Option String) : JObject :=
  loadEnvironmentConfig (loadLocalConfig (loadParentConfigs moduleName getDefaults parents) localFiles) env

/-- The required keys of `ConfigLoader.validate`. -/
def requiredKeys : List String := ["OLLAMA_HOST", "OLLAMA_PORT", "DEFAULT_MODEL"]

/-- `ConfigLoader.validate`: collect the required keys whose value is
falsy (`!this.config[key]`) and throw naming them all, else succeed. -/
def validate (cfg : JObject) : Except String Bool :=
  let missing := requiredKeys.filter (fun k => !(truthyOpt (objGet cfg k)))
  if missing.length > 0 then
    Except.error ("Missing required configuration: " ++ String.intercalate ", " missing)
  else
    Except.ok true

/-- Does `hay` start with `needle` (used for `String.prototype.includes`)? -/
def startsWithChars : List Char → List Char → Bool
  | [], _ => true
  | _ :: _, [] => false
  | a :: as, b :: bs => (a == b) && startsWithChars as bs

/-- Substring containment on character lists (`hay.includes(needle)`). -/
def containsChars (needle : List Char) : List Char → Bool
  | [] => needle.isEmpty
  | c :: cs => startsWithChars needle (c :: cs) || containsChars needle cs

/-- The sensitive markers of `ConfigLoader.getSafeConfig`. -/
def sensitiveMarkers : List String := ["NEO4J_PASSWORD", "API_KEY", "SECRET"]

/-- Does the key name contain a sensitive marker
(`key.toUpperCase().includes(s)`)? -/
def isSensitiveKey (key : String) : Bool :=
  sensitiveMarkers.any (fun s => containsChars s.toList key.toUpper.toList)

/-- `ConfigLoader.getSafeConfig`: the merged map with every sensitive key's
value replaced by the mask `'***'`. -/
def getSafeConfig (cfg : JObject) : JObject :=
  cfg.map (fun p => if isSensitiveKey p.1 then (p.1, JValue.str "***") else p)

/-- Both ends of a string trimmed of whitespace (`String.prototype.trim`). -/
def trimL (cs : List Char) : List Char :=
  ((cs.dropWhile Char.isWhitespace).reverse.dropWhile Char.isWhitespace).reverse

/-- Case-insensitive character comparison, as under a regex `/i` flag. -/
def lcEq (a b : Char) : Bool := a.toLower == b.toLower

/-- Does `hay` start with `pat`, comparing case-insensitively? -/
def ciStarts : List Char → List Char → Bool
  | [], _ => true
  | _ :: _, [] => false
  | p :: ps, c :: cs => lcEq p c && ciStarts ps cs

/-- Index of the first case-insensitive occurrence of `pat` in the text
(leftmost-match semantics of `String.prototype.match`). -/
def findCI (pat : List Char) : List Char → Option Nat
  | [] => if pat.isEmpty then some 0 else none
  | c :: cs => if ciStarts pat (c :: cs) then some 0 else (findCI pat cs).map (fun n => n + 1)

/-- The opening tag of the DeepSeek thinking block. -/
def openTag : List Char := "<think>".toList

/-- The closing tag of the DeepSeek thinking block. -/
def closeTag : List Char := "</think>".toList

/-- The regex `/<think>([\s\S]*?)<\/think>/i` applied to `cs`: the first
(case-insensitive) `<think>`, then the earliest following `</think>`; on a
match, returns the enclosed text and the input with the whole match removed
(`response.replace(thinkRegex, '')`). -/
def parseCore (cs : List Char) : Option (List Char × List Char) :=
  match findCI openTag cs with
  | some p =>
    match findCI closeTag (cs.drop (p + 7)) with
    | some q => some ((cs.drop (p + 7)).take q, cs.take p ++ cs.drop (p + 7 + q + 8))
    | none => none
  | none => none

/-- The introductory phrases of the fallback `thinkingPatterns` list. -/
def thinkingPhrases : List String :=
  ["Let me think about this", "I need to consider", "Thinking through this"]

/-- Try the fallback patterns `/^(<phrase>[\s\S]*?)\n\n([^]*)/i` in order:
the phrase must open the text (case-insensitively), the lazy group runs to
the first blank line, and the match counts only if group 1 is longer than
50 characters; otherwise the next pattern is tried. -/
def applyPatterns : List String → List Char → Option (List Char × List Char)
  | [], _ => none
  | ph :: rest, cs =>
    let pl := ph.toList
    match (if ciStarts pl cs then findCI ['\n', '\n'] (cs.drop pl.length) else none) with
    | some i =>
      let g1 := cs.take (pl.length + i)
      let g2 := cs.drop (pl.length + i + 2)
      if g1.length > 50 then some (g1, g2) else applyPatterns rest cs
    | none => applyPatterns rest cs

/-- The result shape of `parseThinkingResponse`. -/
structure ParsedResponse where
  thinking : Option String
  response : String
  hasThinking : Bool
deriving DecidableEq

/-- `parseThinkingResponse` (server.js): split a raw model response into a
thinking segment and a main response, via the `<think>` tag pair first,
then the introductory-phrase fallbacks, else returning the trimmed text. -/
def parseThinkingResponse (response : String) : ParsedResponse :=
  let cs := response.toList
  match parseCore cs with
  | some (thk, rest) =>
    { thinking := some (String.mk (trimL thk)),
      response := String.mk (trimL rest),
      hasThinking := true }
  | none =>
    match applyPatterns thinkingPhrases cs with
    | some (g1, g2) =>
      { thinking := some (String.mk (trimL g1)),
        response := String.mk (trimL g2),
        hasThinking := true }
    | none =>
      { thinking := none,
        response := String.mk (trimL cs),
        hasThinking := false }

/-- JSON string escaping of one character (the cases `JSON.stringify`
escapes for the values this repository serializes). -/
def escapeJsonChar (c : Char) : String :=
  if c == '"' then "\\\""
  else if c == '\\' then "\\\\"
  else if c == '\n' then "\\n"
  else if c == '\r' then "\\r"
  else if c == '\t' then "\\t"
  else String.mk [c]

/-- JSON string escaping. -/
def escapeJson (s : String) : String :=
  String.join (s.toList.map escapeJsonChar)

mutual

/-- `JSON.stringify` on the JSON value model. -/
def jsonStringify : JValue → String
  | .str s => "\"" ++ escapeJson s ++ "\""
  | .num n => toString n
  | .bool b => if b then "true" else "false"
  | .null => "null"
  | .arr xs => "[" ++ jsonStringifyList xs ++ "]"
  | .obj fs => "\x7b" ++ jsonStringifyFields fs ++ "\x7d"

/-- Comma-separated serialization of array elements. -/
def jsonStringifyList : List JValue → String
  | [] => ""
  | [x] => jsonStringify x
  | x :: y :: xs => jsonStringify x ++ "," ++ jsonStringifyList (y :: xs)

/-- Comma-separated serialization of object fields. -/
def jsonStringifyFields : List (String × JValue) → String
  | [] => ""
  | [p] => "\"" ++ escapeJson p.1 ++ "\":" ++ jsonStringify p.2
  | p :: q :: ps => "\"" ++ escapeJson p.1 ++ "\":" ++ jsonStringify p.2 ++ "," ++ jsonStringifyFields (q :: ps)

end

mutual

/-- `Neo4jUtils.isPrimitiveType` (backend/utils/neo4j-utils.js): strings,
numbers, booleans, null (and, in JavaScript, undefined), or arrays whose
every element is itself of this kind. -/
def isPrimitiveType : JValue → Bool
  | .str _ => true
  | .num _ => true
  | .bool _ => true
  | .null => true
  | .arr xs => isPrimitiveList xs
  | .obj _ => false

/-- `value.every(item => this.isPrimitiveType(item))` over an array. -/
def isPrimitiveList : List JValue → Bool
  | [] => true
  | x :: xs => isPrimitiveType x && isPrimitiveList xs

end

/-- Is the value of JavaScript `typeof` string, number or boolean? (The
test used by the inline metadata cleaning in `initializeRAG`.) -/
def isStrNumBool : JValue → Bool
  | .str _ => true
  | .num _ => true
  | .bool _ => true
  | _ => false

/-- JavaScript `a || b` where `a` is a possibly-missing property. -/
def jsOrD (o : Option JValue) (d : JValue) : JValue :=
  match o with
  | some v => if truthy v then v else d
  | none => d

/-- A LangChain document: page content plus a metadata object. -/
structure Doc where
  pageContent : String
  metadata : JObject

/-- One field of `Neo4jUtils.cleanDocumentMetadata`'s cleaning loop: a
primitive value (in the `isPrimitiveType` sense, which keeps null and
primitive arrays) is stored directly; any other value is serialized with
`JSON.stringify`. -/
def utilsFieldStep (acc : JObject) (p : String × JValue) : JObject :=
  if isPrimitiveType p.2 then objSet acc p.1 p.2
  else objSet acc p.1 (JValue.str (jsonStringify p.2))

/-- The field-cleaning loop of `Neo4jUtils.cleanDocumentMetadata`. -/
def cleanFieldsUtils (md : JObject) : JObject :=
  md.foldl utilsFieldStep []

/-- `Neo4jUtils.cleanDocumentMetadata`: clean each document's metadata
fields, then ensure the derived fields `source`, `chunk_id`, `created_at`
and `content_length` exist. `nowMs` and `nowIso` stand for `Date.now()`
and `new Date().toISOString()`. -/
def cleanDocumentMetadata (nowMs : Nat) (nowIso : String) (docs : List Doc) : List Doc :=
  docs.enum.map (fun ip =>
    let index := ip.1
    let doc := ip.2
    let cleaned := cleanFieldsUtils doc.metadata
    let c1 := objSet cleaned "source" (jsOrD (objGet cleaned "source") (JValue.str "unknown"))
    let c2 := objSet c1 "chunk_id"
      (jsOrD (objGet c1 "chunk_id") (JValue.str ("chunk_" ++ toString index ++ "_" ++ toString nowMs)))
    let c3 := objSet c2 "created_at" (JValue.str nowIso)
    let c4 := objSet c3 "content_length" (JValue.num (Int.ofNat doc.pageContent.length))
    { pageContent := doc.pageContent, metadata := c4 })

/-- One field of the inline cleaning loop in `initializeRAG`: strings,
numbers and booleans are kept, null (and undefined) values are skipped,
and everything else is serialized with `JSON.stringify`. -/
def inlineFieldStep (acc : JObject) (p : String × JValue) : JObject :=
  match p.2 with
  | JValue.str s => objSet acc p.1 (JValue.str s)
  | JValue.num n => objSet acc p.1 (JValue.num n)
  | JValue.bool b => objSet acc p.1 (JValue.bool b)
  | JValue.null => acc
  | v => objSet acc p.1 (JValue.str (jsonStringify v))

/-- The per-field effect of the inline cleaning loop on a lookup: kept,
dropped (null), or serialized. -/
def cleanValInline : JValue → Option JValue
  | JValue.str s => some (JValue.str s)
  | JValue.num n => some (JValue.num n)
  | JValue.bool b => some (JValue.bool b)
  | JValue.null => none
  | v => some (JValue.str (jsonStringify v))

/-- The field-cleaning loop of the inline cleaning step in `initializeRAG`. -/
def cleanFieldsInline (md : JObject) : JObject :=
  md.foldl inlineFieldStep []

/-- The inline per-chunk cleaning of `initializeRAG` (`cleanedDocSplits`):
clean the fields, then ensure `source` and `id`. `genId` stands for the
generated `doc_${Date.now()}_${random}` identifier. -/
def inlineCleanDoc (genId : String) (doc : Doc) : Doc :=
  let cleaned := cleanFieldsInline doc.metadata
  let c1 := objSet cleaned "source"
    (jsOrD (objGet cleaned "source") (jsOrD (objGet doc.metadata "source") (JValue.str "unknown")))
  let c2 := objSet c1 "id" (jsOrD (objGet c1 "id") (JValue.str genId))
  { pageContent := doc.pageContent, metadata := c2 }

/-- The per-URL loading loop of `initializeRAG`: each entry of `results`
is one URL's outcome (`none` when `loader.load()` threw, logged and
skipped; `some ds` when it returned documents, pushed onto the batch). -/
def loadDocuments (results : List (Option (List Doc))) : List Doc :=
  results.foldl (fun acc r =>
    match r with
    | some ds => acc ++ ds
    | none => acc) []

/-- The error thrown by `initializeRAG` when no URL yielded documents. -/
def noDocsMsg : String := "No documents were successfully loaded from URLs"

/-- The error thrown by `initializeRAG` when the Ollama probe fails. -/
def ollamaErrMsg (host port : String) : String :=
  "Cannot connect to Ollama at " ++ host ++ ":" ++ port ++ ". Make sure Ollama is running."

/-- The error thrown by `initializeRAG` when the Neo4j store creation fails. -/
def neo4jErrMsg (uri : String) : String :=
  "Cannot connect to Neo4j at " ++ uri ++ ". Make sure Neo4j is running with correct credentials."

/-- The module-level mutable state of server.js that `initializeRAG`, the
initialize endpoint and the chat endpoints read and write. -/
structure ServerState where
  vectorstore : Option (List Doc)
  retriever : Option Unit
  chatModel : Option Unit
  isInitializing : Bool
  initializationError : Option String

/-- The external world one run of `initializeRAG` interacts with: whether
the Ollama probe succeeds, the per-URL fetch outcomes, the text splitter,
the generated chunk identifiers, and whether the Neo4j store creation
succeeds. -/
structure World where
  ollamaOk : Bool
  fetch : List (Option (List Doc))
  splitDocs : List Doc → List Doc
  genId : Nat → String
  neo4jOk : Bool

/-- `initializeRAG` (server.js): guarded by `isInitializing`; sets the flag
and the chat model, probes Ollama, loads the URLs tolerating per-URL
failures, fails if no documents loaded, splits and cleans the chunks, and
creates the vector store; any thrown error is recorded in
`initializationError` and rethrown; `finally` clears `isInitializing`. -/
def initializeRAG (host port uri : String) (w : World) (s : ServerState) :
    ServerState × Except String Unit :=
  if s.isInitializing then (s, Except.ok ())
  else
    let s1 : ServerState :=
      { s with isInitializing := true, initializationError := none, chatModel := some () }
    if w.ollamaOk = false then
      ({ s1 with initializationError := some (ollamaErrMsg host port), isInitializing := false },
       Except.error (ollamaErrMsg host port))
    else
      let docs := loadDocuments w.fetch
      if docs.length = 0 then
        ({ s1 with initializationError := some noDocsMsg, isInitializing := false },
         Except.error noDocsMsg)
      else
        let docSplits := w.splitDocs docs
        let cleanedDocSplits := docSplits.enum.map (fun p => inlineCleanDoc (w.genId p.1) p.2)
        if w.neo4jOk = false then
          ({ s1 with initializationError := some (neo4jErrMsg uri), isInitializing := false },
           Except.error (neo4jErrMsg uri))
        else
          ({ s1 with
              vectorstore := some cleanedDocSplits,
              retriever := some (),
              isInitializing := false },
           Except.ok ())

/-- The responses of `POST /api/initialize`. -/
inductive InitHttp where
  | alreadyOk
  | okNew
  | serverError (msg : String)
deriving DecidableEq

/-- The `POST /api/initialize` handler: short-circuits with a success
acknowledgment when `vectorstore` is already non-null; otherwise runs
`initializeRAG` and reports its outcome. -/
def initializeHandler (host port uri : String) (w : World) (s : ServerState) :
    ServerState × InitHttp :=
  if s.vectorstore.isSome then (s, InitHttp.alreadyOk)
  else
    match initializeRAG host port uri w s with
    | (s1, Except.ok _) => (s1, InitHttp.okNew)
    | (s1, Except.error m) => (s1, InitHttp.serverError m)

/-- The responses of the chat endpoints. -/
inductive ChatHttp where
  | badRequest (msg : String)
  | unavailable (msg : String)
  | okResp (p : ParsedResponse)
deriving DecidableEq

/-- The `POST /api/chat/before-rag` handler: reject a missing or falsy
`topic` with 400, reject a missing chat model with 503, else invoke the
chain (`modelOut` is its raw output) and parse the thinking response.
The returned flag records whether the chat chain was invoked. -/
def chatBeforeRagHandler (body : JObject) (s : ServerState) (modelOut : String) :
    ChatHttp × Bool :=
  if truthyOpt (objGet body "topic") = false then (ChatHttp.badRequest "Topic is required", false)
  else if s.chatModel.isNone then (ChatHttp.unavailable "Chat model not initialized", false)
  else (ChatHttp.okResp (parseThinkingResponse modelOut), true)

/-- The `POST /api/chat/with-rag` handler: reject a missing or falsy
`question` with 400, reject a missing retriever or chat model with 503,
else invoke the retrieval chain and parse the thinking response. -/
def chatWithRagHandler (body : JObject) (s : ServerState) (modelOut : String) :
    ChatHttp × Bool :=
  if truthyOpt (objGet body "question") = false then (ChatHttp.badRequest "Question is required", false)
  else if s.retriever.isNone || s.chatModel.isNone then
    (ChatHttp.unavailable "RAG system not initialized", false)
  else (ChatHttp.okResp (parseThinkingResponse modelOut), true)

/-- The net effect on key `k` of merging one discovered parent config file
(the module-specific section, if truthy, overriding the file's own
top-level values). -/
def stepGet (moduleName : String) (f : FileResult) (k : String) : Option JValue :=
  match f with
  | .parsed v =>
    por (match jGet v moduleName with
         | some sec => if truthy sec then findLast (spreadFields sec) k else none
         | none => none)
        (findLast (spreadFields v) k)
  | _ => none


theorem por_none_right {α : Type} (a : Option α) : por a none = a := by
  cases a <;> rfl

theorem por_assoc {α : Type} (a b c : Option α) : por (por a b) c = por a (por b c) := by
  cases a <;> rfl

theorem lastSome_foldl {α : Type} (xs : List (Option α)) :
    ∀ init : Option α, xs.foldl (fun acc o => por o acc) init = por (lastSome xs) init := by
  induction xs with
  | nil => intro init; rfl
  | cons x xs ih =>
    intro init
    have h1 : (x :: xs).foldl (fun acc o => por o acc) init
        = xs.foldl (fun acc o => por o acc) (por x init) := rfl
    have h2 : lastSome (x :: xs) = xs.foldl (fun acc o => por o acc) (por x none) := rfl
    rw [h1, h2, ih (por x init), ih (por x none), por_none_right, por_assoc]

theorem lastSome_cons {α : Type} (x : Option α) (xs : List (Option α)) :
    lastSome (x :: xs) = por (lastSome xs) x := by
  have h : lastSome (x :: xs) = xs.foldl (fun acc o => por o acc) (por x none) := rfl
  rw [h, lastSome_foldl, por_none_right]

theorem objGet_nil (k : String) : objGet [] k = none := rfl

theorem objGet_cons (p : String × JValue) (ps : JObject) (k : String) :
    objGet (p :: ps) k = if p.1 = k then some p.2 else objGet ps k := by
  by_cases h : p.1 = k
  · simp [objGet, List.find?, h]
  · have hb : (p.1 == k) = false := by simpa using h
    simp [objGet, List.find?, hb, h]

theorem objGet_eq_none_of_any_false (m : JObject) (k : String)
    (h : m.any (fun p => p.1 == k) = false) : objGet m k = none := by
  induction m with
  | nil => rfl
  | cons p ps ih =>
    simp only [List.any_cons, Bool.or_eq_false_iff] at h
    rw [objGet_cons]
    have hp : ¬ p.1 = k := by simpa using h.1
    simp [hp, ih h.2]

theorem objGet_map_update (m : JObject) (k : String) (v : JValue) (k' : String) :
    objGet (m.map (fun p => if p.1 == k then (k, v) else p)) k'
      = if k = k' then (if m.any (fun p => p.1 == k) then some v else none)
        else objGet m k' := by
  induction m with
  | nil => by_cases h : k = k' <;> simp [objGet, h]
  | cons p ps ih =>
    rw [List.map_cons, objGet_cons, ih, objGet_cons, List.any_cons]
    by_cases h1 : p.1 = k
    · have hb : (p.1 == k) = true := by simpa using h1
      by_cases h3 : k = k'
      · simp [hb, h1, h3]
      · have h2 : ¬ p.1 = k' := fun he => h3 (h1 ▸ he)
        simp [hb, h1, h3, h2]
    · have hb : (p.1 == k) = false := by simpa using h1
      by_cases h2 : p.1 = k'
      · have h3 : ¬ k = k' := fun he => h1 (he ▸ h2)
        have h4 : ¬ k' = k := fun he => h3 he.symm
        simp [hb, h2, h3, h4]
      · by_cases h3 : k = k'
        · subst h3
          rw [hb, Bool.false_or]
          simp [h2]
        · simp [hb, h2, h3]

theorem objGet_append_single (m : JObject) (k : String) (v : JValue) (k' : String) :
    objGet (m ++ [(k, v)]) k' = por (objGet m k') (if k = k' then some v else none) := by
  induction m with
  | nil =>
    rw [List.nil_append, objGet_cons, objGet_nil]
    by_cases h : k = k' <;> simp [h, por, objGet_nil]
  | cons p ps ih =>
    rw [List.cons_append, objGet_cons, objGet_cons]
    by_cases h : p.1 = k' <;> simp [h, por, ih]

theorem objGet_objSet (m : JObject) (k : String) (v : JValue) (k' : String) :
    objGet (objSet m k v) k' = if k = k' then some v else objGet m k' := by
  unfold objSet
  by_cases ha : m.any (fun p => p.1 == k) = true
  · simp only [ha, if_true]
    rw [objGet_map_update, ha]
    simp
  · have ha' : m.any (fun p => p.1 == k) = false := Bool.eq_false_iff.mpr ha
    simp only [ha', Bool.false_eq_true, if_false]
    rw [objGet_append_single]
    by_cases h : k = k'
    · subst h
      rw [objGet_eq_none_of_any_false m k ha']
      simp [por]
    · simp [h, por_none_right]

theorem objGet_foldl {α : Type} (g : JObject → α → JObject) (h : α → String → Option JValue)
    (H : ∀ cfg a k, objGet (g cfg a) k = por (h a k) (objGet cfg k)) (l : List α) :
    ∀ (cfg : JObject) (k : String),
      objGet (l.foldl g cfg) k = por (lastSome (l.map (fun a => h a k))) (objGet cfg k) := by
  induction l with
  | nil => intro cfg k; simp [lastSome, por]
  | cons a l ih =>
    intro cfg k
    have h1 : (a :: l).foldl g cfg = l.foldl g (g cfg a) := rfl
    rw [h1, ih (g cfg a) k, H cfg a k, List.map_cons, lastSome_cons, por_assoc]

theorem objGet_objFold (cfg : JObject) (l : JObject) (k : String) :
    objGet (objFold cfg l) k = por (findLast l k) (objGet cfg k) := by
  have H : ∀ (cfg : JObject) (p : String × JValue) (k : String),
      objGet (objSet cfg p.1 p.2) k
        = por (if p.1 = k then some p.2 else none) (objGet cfg k) := by
    intro cfg p k
    rw [objGet_objSet]
    by_cases h : p.1 = k <;> simp [h, por]
  exact objGet_foldl _ (fun p k => if p.1 = k then some p.2 else none) H l cfg k

theorem objGet_spreadMerge (cfg : JObject) (v : JValue) (k : String) :
    objGet (spreadMerge cfg v) k = por (findLast (spreadFields v) k) (objGet cfg k) :=
  objGet_objFold cfg (spreadFields v) k

theorem objGet_parentStep (m : String) (cfg : JObject) (f : FileResult) (k : String) :
    objGet (parentStep m cfg f) k = por (stepGet m f k) (objGet cfg k) := by
  cases f with
  | missing => simp [parentStep, stepGet, por]
  | malformed => simp [parentStep, stepGet, por]
  | parsed v =>
    simp only [parentStep, stepGet]
    cases hj : jGet v m with
    | none =>
      rw [objGet_spreadMerge]
      simp [por]
    | some sec =>
      cases hb : truthy sec with
      | false =>
        simp only [hb, Bool.false_eq_true, if_false]
        rw [objGet_spreadMerge]
        simp [por]
      | true =>
        simp only [hb, if_true]
        rw [objGet_spreadMerge, objGet_spreadMerge, por_assoc]

theorem objGet_loadParentConfigs (m : String) (cfg : JObject) (ps : List FileResult) (k : String) :
    objGet (loadParentConfigs m cfg ps) k
      = por (lastSome ((ps.take 5).map (fun f => stepGet m f k))) (objGet cfg k) :=
  objGet_foldl (parentStep m) (stepGet m) (objGet_parentStep m) (ps.take 5) cfg k

theorem loadParentConfigs_factor (m : String) (cfg : JObject) (ps : List FileResult) (k : String) :
    objGet (loadParentConfigs m cfg ps) k
      = por (objGet (loadParentConfigs m [] ps) k) (objGet cfg k) := by
  rw [objGet_loadParentConfigs, objGet_loadParentConfigs, objGet_nil, por_none_right]

theorem objGet_loadLocalConfig (fs : List FileResult) :
    ∀ (cfg : JObject) (k : String),
      objGet (loadLocalConfig cfg fs) k
        = por (objGet (loadLocalConfig [] fs) k) (objGet cfg k) := by
  induction fs with
  | nil =>
    intro cfg k
    show objGet cfg k = por (objGet ([] : JObject) k) (objGet cfg k)
    rw [objGet_nil]
    rfl
  | cons f rest ih =>
    intro cfg k
    cases f with
    | parsed v =>
      show objGet (spreadMerge cfg v) k = por (objGet (spreadMerge [] v) k) (objGet cfg k)
      rw [objGet_spreadMerge, objGet_spreadMerge, objGet_nil, por_none_right]
    | missing =>
      show objGet (loadLocalConfig cfg rest) k
        = por (objGet (loadLocalConfig [] rest) k) (objGet cfg k)
      exact ih cfg k
    | malformed =>
      show objGet (loadLocalConfig cfg rest) k
        = por (objGet (loadLocalConfig [] rest) k) (objGet cfg k)
      exact ih cfg k

theorem objGet_envStep (env : String → Option String) (cfg : JObject) (p : String × String)
    (k : String) :
    objGet (envStep env cfg p) k
      = por (match env p.2 with
             | some s => if s != "" then (if p.1 = k then some (JValue.str s) else none) else none
             | none => none)
          (objGet cfg k) := by
  cases he : env p.2 with
  | none => simp [envStep, he, por]
  | some s =>
    cases hs : (s != "") with
    | false => simp [envStep, he, hs, por]
    | true =>
      simp only [envStep, he, hs, if_true]
      rw [objGet_objSet]
      by_cases h : p.1 = k <;> simp [h, por]

theorem objGet_loadEnvironmentConfig (cfg : JObject) (env : String → Option String) (k : String) :
    objGet (loadEnvironmentConfig cfg env) k
      = por (objGet (loadEnvironmentConfig [] env) k) (objGet cfg k) := by
  have h1 := objGet_foldl (envStep env)
      (fun p k => match env p.2 with
        | some s => if s != "" then (if p.1 = k then some (JValue.str s) else none) else none
        | none => none)
      (objGet_envStep env) envMapping cfg k
  have h2 := objGet_foldl (envStep env)
      (fun p k => match env p.2 with
        | some s => if s != "" then (if p.1 = k then some (JValue.str s) else none) else none
        | none => none)
      (objGet_envStep env) envMapping [] k
  rw [objGet_nil, por_none_right] at h2
  show objGet (envMapping.foldl (envStep env) cfg) k
      = por (objGet (envMapping.foldl (envStep env) []) k) (objGet cfg k)
  rw [h1, h2]

/-- C1: after `ConfigLoader.loadConfig`'s merge, the value of every key is
that of the highest-precedence source defining it: environment variables
(through the fixed translation table), then the first successfully parsed
local config file, then the parent-directory config.json files, then the
built-in defaults. Each source map is the corresponding loader run from an
empty object. -/
theorem c1_loadConfig_precedence (m : String) (ps fs : List FileResult)
    (env : String → Option String) (k : String) :
    objGet (loadConfig m ps fs env) k
      = por (objGet (loadEnvironmentConfig [] env) k)
          (por (objGet (loadLocalConfig [] fs) k)
            (por (objGet (loadParentConfigs m [] ps) k) (objGet getDefaults k))) := by
  show objGet (loadEnvironmentConfig (loadLocalConfig (loadParentConfigs m getDefaults ps) fs) env) k = _
  rw [objGet_loadEnvironmentConfig, objGet_loadLocalConfig fs, loadParentConfigs_factor]

theorem lastSome_append {α : Type} (xs ys : List (Option α)) :
    lastSome (xs ++ ys) = por (lastSome ys) (lastSome xs) := by
  show (xs ++ ys).foldl (fun acc o => por o acc) none = _
  rw [List.foldl_append]
  exact lastSome_foldl ys (xs.foldl (fun acc o => por o acc) none)

theorem lastSome_all_none {α : Type} (ys : List (Option α)) (h : ∀ o ∈ ys, o = none) :
    lastSome ys = none := by
  induction ys with
  | nil => rfl
  | cons y ys ih =>
    rw [lastSome_cons, h y (List.mem_cons_self y ys), por_none_right]
    exact ih (fun o ho => h o (List.mem_cons_of_mem y ho))

/-- C9: when several ancestor directories' config.json files bind the same
key, `loadParentConfigs` resolves it to the binding of the farthest
ancestor among the first five levels, because the files are merged in
walking order (nearest first) and each later merge overwrites earlier
values. `stepGet` is one file's net binding for the key. -/
theorem c9_parent_far_overrides (m : String) (cfg : JObject) (ps : List FileResult)
    (k : String) (j : Nat) (fj : FileResult) (vj : JValue)
    (hj5 : j < 5) (hjget : ps[j]? = some fj) (hstep : stepGet m fj k = some vj)
    (hafter : ∀ i f, j < i → i < 5 → ps[i]? = some f → stepGet m f k = none) :
    objGet (loadParentConfigs m cfg ps) k = some vj := by
  rw [objGet_loadParentConfigs]
  have hmj : ((ps.take 5).map (fun f => stepGet m f k))[j]? = some (some vj) := by
    rw [List.getElem?_map, List.getElem?_take_of_lt hj5, hjget]
    simp [hstep]
  have hdrop : lastSome (((ps.take 5).map (fun f => stepGet m f k)).drop (j+1)) = none := by
    apply lastSome_all_none
    intro o ho
    obtain ⟨n, hn⟩ := List.mem_iff_getElem?.mp ho
    rw [List.getElem?_drop, List.getElem?_map] at hn
    cases hf : (ps.take 5)[j + 1 + n]? with
    | none => rw [hf] at hn; simp at hn
    | some f =>
      rw [hf] at hn
      simp only [Option.map_some'] at hn
      rw [Option.some.injEq] at hn
      have hi5 : j + 1 + n < 5 := by
        have hlen : j + 1 + n < (ps.take 5).length := (List.getElem?_eq_some.mp hf).1
        have hle : (ps.take 5).length ≤ 5 := by
          rw [List.length_take]
          exact Nat.min_le_left 5 ps.length
        omega
      have hps : ps[j + 1 + n]? = some f := by
        rw [List.getElem?_take_of_lt hi5] at hf
        exact hf
      have hz := hafter (j + 1 + n) f (by omega) hi5 hps
      rw [hz] at hn
      exact hn.symm
  have htake : lastSome (((ps.take 5).map (fun f => stepGet m f k)).take (j+1)) = some vj := by
    rw [List.take_succ, hmj, lastSome_append]
    rfl
  have hsplit := (List.take_append_drop (j+1) ((ps.take 5).map (fun f => stepGet m f k))).symm
  rw [hsplit, lastSome_append, hdrop, htake]
  rfl

theorem getSafeConfig_lookup (cfg : JObject) (k : String) :
    objGet (getSafeConfig cfg) k
      = (objGet cfg k).map (fun v => if isSensitiveKey k then JValue.str "***" else v) := by
  induction cfg with
  | nil => rfl
  | cons p ps ih =>
    show objGet ((if isSensitiveKey p.1 then (p.1, JValue.str "***") else p) :: getSafeConfig ps) k = _
    by_cases hs : isSensitiveKey p.1
    · rw [if_pos hs, objGet_cons, objGet_cons]
      by_cases hk : p.1 = k
      · subst hk
        simp [hs]
      · simp [hk, ih]
    · rw [if_neg hs, objGet_cons, objGet_cons]
      by_cases hk : p.1 = k
      · subst hk
        simp [hs]
      · simp [hk, ih]

/-- C5: `getSafeConfig` returns a map with the same keys, masking with
`'***'` exactly the keys whose (upper-cased) name contains one of the
sensitive markers, and leaving every other key's value unchanged. -/
theorem c5_getSafeConfig_mask (cfg : JObject) (k : String) :
    (getSafeConfig cfg).map Prod.fst = cfg.map Prod.fst ∧
    objGet (getSafeConfig cfg) k
      = (objGet cfg k).map (fun v => if isSensitiveKey k then JValue.str "***" else v) := by
  refine ⟨?_, getSafeConfig_lookup cfg k⟩
  rw [getSafeConfig, List.map_map]
  congr 1
  funext p
  by_cases h : isSensitiveKey p.1 <;> simp [h, Function.comp]

/-- C4 (counterexample): a merged map in which all three required keys are
present but `OLLAMA_HOST` is the empty string: the claim says `validate`
succeeds whenever all three keys are present, yet the code's falsy test
`!this.config[key]` makes it throw. -/
theorem c4_counterexample :
    ((objGet [("OLLAMA_HOST", JValue.str ""), ("OLLAMA_PORT", JValue.str "11434"),
        ("DEFAULT_MODEL", JValue.str "llama3.2")] "OLLAMA_HOST").isSome = true
      ∧ (objGet [("OLLAMA_HOST", JValue.str ""), ("OLLAMA_PORT", JValue.str "11434"),
        ("DEFAULT_MODEL", JValue.str "llama3.2")] "OLLAMA_PORT").isSome = true
      ∧ (objGet [("OLLAMA_HOST", JValue.str ""), ("OLLAMA_PORT", JValue.str "11434"),
        ("DEFAULT_MODEL", JValue.str "llama3.2")] "DEFAULT_MODEL").isSome = true)
    ∧ validate [("OLLAMA_HOST", JValue.str ""), ("OLLAMA_PORT", JValue.str "11434"),
        ("DEFAULT_MODEL", JValue.str "llama3.2")]
      = Except.error "Missing required configuration: OLLAMA_HOST" := by
  exact ⟨⟨rfl, rfl, rfl⟩, rfl⟩

/-- C4 (amended): `validate()` succeeds iff every required key
(`OLLAMA_HOST`, `OLLAMA_PORT`, `DEFAULT_MODEL`) is present with a truthy
value in the merged map, and it fails — with an error naming every
offending key — iff some required key is absent or bound to a falsy value
(empty string, 0, false or null). -/
theorem c4_validate_amended (cfg : JObject) :
    (validate cfg = Except.ok true ↔ ∀ k ∈ requiredKeys, truthyOpt (objGet cfg k) = true) ∧
    ((∃ k ∈ requiredKeys, truthyOpt (objGet cfg k) = false) ↔
      validate cfg = Except.error ("Missing required configuration: "
        ++ String.intercalate ", " (requiredKeys.filter (fun k => !(truthyOpt (objGet cfg k)))))) := by
  have hmiss : (requiredKeys.filter (fun k => !(truthyOpt (objGet cfg k)))) = [] ↔
      ∀ k ∈ requiredKeys, truthyOpt (objGet cfg k) = true := by
    rw [List.filter_eq_nil_iff]
    constructor
    · intro h k hk
      simpa using h k hk
    · intro h k hk
      simp [h k hk]
  by_cases h : (requiredKeys.filter (fun k => !(truthyOpt (objGet cfg k)))).length > 0
  · have hne : ¬ (requiredKeys.filter (fun k => !(truthyOpt (objGet cfg k)))) = [] := by
      intro he
      rw [he] at h
      simp at h
    have hv : validate cfg = Except.error ("Missing required configuration: "
        ++ String.intercalate ", " (requiredKeys.filter (fun k => !(truthyOpt (objGet cfg k))))) := by
      simp [validate, h]
    constructor
    · rw [hv]
      constructor
      · intro he
        cases he
      · intro hall
        exact absurd (hmiss.mpr hall) hne
    · constructor
      · intro _
        exact hv
      · intro _
        obtain ⟨x, hx⟩ := List.exists_mem_of_ne_nil _ hne
        rcases List.mem_filter.mp hx with ⟨hxr, hxp⟩
        exact ⟨x, hxr, by simpa using hxp⟩
  · have he : (requiredKeys.filter (fun k => !(truthyOpt (objGet cfg k)))) = [] :=
      List.length_eq_zero.mp (by omega)
    have hv : validate cfg = Except.ok true := by
      simp [validate, h]
    constructor
    · rw [hv]
      exact iff_of_true rfl (hmiss.mp he)
    · constructor
      · rintro ⟨k, hk, hkf⟩
        have ht := hmiss.mp he k hk
        rw [ht] at hkf
        cases hkf
      · intro hverr
        rw [hv] at hverr
        cases hverr

/-- C4 (witness): a concrete merged map with all three required keys
truthy, on which the amended theorem yields success. -/
theorem c4_witness :
    validate [("OLLAMA_HOST", JValue.str "h"), ("OLLAMA_PORT", JValue.str "1"),
      ("DEFAULT_MODEL", JValue.str "m")] = Except.ok true :=
  (c4_validate_amended _).1.mpr (by decide)

theorem dropWhile_head_not {α : Type} (p : α → Bool) (l : List α) (c : α)
    (h : (l.dropWhile p).head? = some c) : p c = false := by
  induction l with
  | nil => cases h
  | cons a t ih =>
    rw [List.dropWhile_cons] at h
    cases hpa : p a with
    | true => rw [hpa, if_pos rfl] at h; exact ih h
    | false =>
      rw [hpa] at h
      simp only [Bool.false_eq_true, if_false, List.head?_cons, Option.some.injEq] at h
      rw [← h]
      exact hpa

theorem dropWhile_idem {α : Type} (p : α → Bool) (l : List α) :
    (l.dropWhile p).dropWhile p = l.dropWhile p := by
  cases hl : l.dropWhile p with
  | nil => rfl
  | cons a t =>
    have ha : p a = false := dropWhile_head_not p l a (by rw [hl]; rfl)
    rw [List.dropWhile_cons, ha]
    simp

theorem getLast?_dropWhile {α : Type} (p : α → Bool) (l : List α)
    (h : l.dropWhile p ≠ []) : (l.dropWhile p).getLast? = l.getLast? := by
  induction l with
  | nil => exact absurd rfl h
  | cons a t ih =>
    rw [List.dropWhile_cons]
    cases hpa : p a with
    | false => simp
    | true =>
      rw [List.dropWhile_cons, hpa, if_pos rfl] at h
      have ht : t ≠ [] := by
        intro he
        rw [he] at h
        exact h rfl
      rw [if_pos rfl, ih h]
      cases t with
      | nil => exact absurd rfl ht
      | cons b t2 => exact (List.getLast?_cons_cons).symm

theorem dropWhile_trimL (l : List Char) :
    (trimL l).dropWhile Char.isWhitespace = trimL l := by
  cases hB : (l.dropWhile Char.isWhitespace).reverse.dropWhile Char.isWhitespace with
  | nil =>
    rw [trimL, hB]
    rfl
  | cons b t =>
    have hBne : (l.dropWhile Char.isWhitespace).reverse.dropWhile Char.isWhitespace ≠ [] := by
      rw [hB]
      exact List.cons_ne_nil _ _
    have h1 := getLast?_dropWhile Char.isWhitespace (l.dropWhile Char.isWhitespace).reverse hBne
    rw [List.getLast?_reverse, hB] at h1
    cases hA : l.dropWhile Char.isWhitespace with
    | nil => rw [hA] at hB; simp at hB
    | cons a t2 =>
      have hwa : Char.isWhitespace a = false :=
        dropWhile_head_not Char.isWhitespace l a (by rw [hA]; rfl)
      rw [hA] at h1
      simp only [List.head?_cons] at h1
      rw [trimL, hB]
      have hh : (b :: t).reverse.head? = some a := by
        rw [List.head?_reverse]
        exact h1
      cases hr : (b :: t).reverse with
      | nil => simp at hr
      | cons c r =>
        rw [hr] at hh
        have hca : c = a := by simpa using hh
        rw [List.dropWhile_cons, hca, hwa]
        simp

theorem trimL_idem (l : List Char) : trimL (trimL l) = trimL l := by
  have h2 : (trimL l).dropWhile Char.isWhitespace = trimL l := dropWhile_trimL l
  show (((trimL l).dropWhile Char.isWhitespace).reverse.dropWhile Char.isWhitespace).reverse = trimL l
  rw [h2, trimL, List.reverse_reverse,
    dropWhile_idem Char.isWhitespace (l.dropWhile Char.isWhitespace).reverse]

theorem parseThinkingResponse_tag (x : String) (a b : List Char)
    (h : parseCore x.toList = some (a, b)) :
    parseThinkingResponse x
      = { thinking := some (String.mk (trimL a)), response := String.mk (trimL b),
          hasThinking := true } := by
  simp only [parseThinkingResponse, h]

theorem parseThinkingResponse_phrase (x : String) (a b : List Char)
    (h1 : parseCore x.toList = none)
    (h2 : applyPatterns thinkingPhrases x.toList = some (a, b)) :
    parseThinkingResponse x
      = { thinking := some (String.mk (trimL a)), response := String.mk (trimL b),
          hasThinking := true } := by
  simp only [parseThinkingResponse, h1, h2]

theorem parseThinkingResponse_plain (x : String)
    (h1 : parseCore x.toList = none)
    (h2 : applyPatterns thinkingPhrases x.toList = none) :
    parseThinkingResponse x
      = { thinking := none, response := String.mk (trimL x.toList), hasThinking := false } := by
  simp only [parseThinkingResponse, h1, h2]

theorem parseThinkingResponse_response_trimmed (x : String) :
    ∃ l : List Char, (parseThinkingResponse x).response = String.mk (trimL l) := by
  cases hpc : parseCore x.toList with
  | some p =>
    exact ⟨p.2, by rw [parseThinkingResponse_tag x p.1 p.2 (by rw [hpc])]⟩
  | none =>
    cases hap : applyPatterns thinkingPhrases x.toList with
    | some p =>
      exact ⟨p.2, by rw [parseThinkingResponse_phrase x p.1 p.2 hpc (by rw [hap])]⟩
    | none =>
      exact ⟨x.toList, by rw [parseThinkingResponse_plain x hpc hap]⟩

theorem parseThinkingResponse_no_thinking (x : String)
    (h : (parseThinkingResponse x).hasThinking = false) :
    (parseThinkingResponse x).response = String.mk (trimL x.toList) := by
  cases hpc : parseCore x.toList with
  | some p =>
    rw [parseThinkingResponse_tag x p.1 p.2 (by rw [hpc])] at h
    cases h
  | none =>
    cases hap : applyPatterns thinkingPhrases x.toList with
    | some p =>
      rw [parseThinkingResponse_phrase x p.1 p.2 hpc (by rw [hap])] at h
      cases h
    | none =>
      rw [parseThinkingResponse_plain x hpc hap]

/-- C3 (counterexample): on an input with two think blocks the extractor
removes only the first, so the extracted answer still contains a block and
a second extraction changes it: idempotence fails as stated. -/
theorem c3_counterexample :
    ¬ ((parseThinkingResponse
          ((parseThinkingResponse "<think>a</think><think>b</think>c").response)).response
        = (parseThinkingResponse "<think>a</think><think>b</think>c").response) := by
  have h1 : (parseThinkingResponse "<think>a</think><think>b</think>c").response
      = "<think>b</think>c" := rfl
  rw [h1]
  have h2 : (parseThinkingResponse "<think>b</think>c").response = "c" := rfl
  rw [h2]
  decide

/-- C3 (amended): re-extraction leaves the answer unchanged whenever it
detects no reasoning in it — i.e. unless the first answer still contains a
think block or matches an introductory-phrase pattern, in which case the
second pass strips further. (Every extracted answer is already trimmed, so
the plain branch of the second pass returns it unchanged.) -/
theorem c3_idempotence_amended (x : String)
    (h : (parseThinkingResponse ((parseThinkingResponse x).response)).hasThinking = false) :
    (parseThinkingResponse ((parseThinkingResponse x).response)).response
      = (parseThinkingResponse x).response := by
  obtain ⟨l, hl⟩ := parseThinkingResponse_response_trimmed x
  rw [parseThinkingResponse_no_thinking _ h, hl]
  show String.mk (trimL (trimL l)) = String.mk (trimL l)
  rw [trimL_idem]

/-- C3 (witness): on `"<think>A</think>B"` the extracted answer `"B"`
contains no further markers, and the amended idempotence theorem applies. -/
theorem c3_witness :
    (parseThinkingResponse ((parseThinkingResponse "<think>A</think>B").response)).response
      = (parseThinkingResponse "<think>A</think>B").response :=
  c3_idempotence_amended "<think>A</think>B" (by decide)

theorem ciStarts_of_map_toLower (pat : List Char) :
    ∀ (a r : List Char), a.map Char.toLower = pat.map Char.toLower →
      ciStarts pat (a ++ r) = true := by
  induction pat with
  | nil => intro a r _; rfl
  | cons p ps ih =>
    intro a r h
    cases a with
    | nil => simp at h
    | cons b bs =>
      simp only [List.map_cons, List.cons.injEq] at h
      show (lcEq p b && ciStarts ps (bs ++ r)) = true
      rw [Bool.and_eq_true]
      exact ⟨by simp [lcEq, h.1], ih bs r h.2⟩

theorem findCI_first (pat : List Char) :
    ∀ (cs : List Char) (n : Nat), ciStarts pat (cs.drop n) = true →
      (∀ i, i < n → ciStarts pat (cs.drop i) = false) → findCI pat cs = some n := by
  intro cs
  induction cs with
  | nil =>
    intro n h1 h2
    rw [List.drop_nil] at h1
    cases n with
    | zero =>
      cases pat with
      | nil => rfl
      | cons p ps => cases h1
    | succ m =>
      have h0 := h2 0 (Nat.succ_pos m)
      rw [List.drop_nil] at h0
      rw [h0] at h1
      cases h1
  | cons c cs ih =>
    intro n h1 h2
    cases n with
    | zero =>
      rw [List.drop_zero] at h1
      show (if ciStarts pat (c :: cs) then some 0 else (findCI pat cs).map (fun n => n + 1))
        = some 0
      rw [h1]
      rfl
    | succ m =>
      have h0 := h2 0 (Nat.succ_pos m)
      rw [List.drop_zero] at h0
      rw [List.drop_succ_cons] at h1
      show (if ciStarts pat (c :: cs) then some 0 else (findCI pat cs).map (fun n => n + 1))
        = some (m + 1)
      rw [h0]
      have hr : findCI pat cs = some m := by
        refine ih m h1 (fun i hi => ?_)
        have hs := h2 (i + 1) (Nat.succ_lt_succ hi)
        rwa [List.drop_succ_cons] at hs
      rw [hr]
      rfl

/-- C2: for every input decomposing as `pre ++ otg ++ mid ++ ctg ++ post`
where `otg`/`ctg` match `<think>`/`</think>` case-insensitively, `otg` is
the first open-tag occurrence and `ctg` the first close tag after it,
`parseThinkingResponse` returns the enclosed text trimmed as the thinking
segment, the input with the whole tagged block removed and trimmed as the
response, and `hasThinking = true`. -/
theorem c2_parseThinkingResponse_think_block (pre otg mid ctg post : List Char)
    (ho : otg.map Char.toLower = openTag.map Char.toLower)
    (hc : ctg.map Char.toLower = closeTag.map Char.toLower)
    (hpre : ∀ i, i < pre.length →
      ciStarts openTag ((pre ++ otg ++ mid ++ ctg ++ post).drop i) = false)
    (hmid : ∀ i, i < mid.length →
      ciStarts closeTag ((mid ++ ctg ++ post).drop i) = false) :
    parseThinkingResponse (String.mk (pre ++ otg ++ mid ++ ctg ++ post))
      = { thinking := some (String.mk (trimL mid)),
          response := String.mk (trimL (pre ++ post)), hasThinking := true } := by
  have holen : otg.length = 7 := by
    have h := congrArg List.length ho
    rw [List.length_map, List.length_map] at h
    exact h.trans (by rfl)
  have hclen : ctg.length = 8 := by
    have h := congrArg List.length hc
    rw [List.length_map, List.length_map] at h
    exact h.trans (by rfl)
  have hassoc : pre ++ otg ++ mid ++ ctg ++ post = pre ++ (otg ++ (mid ++ (ctg ++ post))) := by
    simp [List.append_assoc]
  have hdropPre : (pre ++ otg ++ mid ++ ctg ++ post).drop pre.length
      = otg ++ mid ++ ctg ++ post := by
    rw [hassoc, List.drop_left]
    simp [List.append_assoc]
  have hstartO : ciStarts openTag ((pre ++ otg ++ mid ++ ctg ++ post).drop pre.length) = true := by
    rw [hdropPre, show otg ++ mid ++ ctg ++ post = otg ++ (mid ++ ctg ++ post) from by
      simp [List.append_assoc]]
    exact ciStarts_of_map_toLower openTag otg (mid ++ ctg ++ post) ho
  have hfo : findCI openTag (pre ++ otg ++ mid ++ ctg ++ post) = some pre.length :=
    findCI_first openTag _ pre.length hstartO hpre
  have hdrop7 : (pre ++ otg ++ mid ++ ctg ++ post).drop (pre.length + 7)
      = mid ++ ctg ++ post := by
    have h1 : (pre ++ otg).length = pre.length + 7 := by
      rw [List.length_append, holen]
    rw [show pre ++ otg ++ mid ++ ctg ++ post = (pre ++ otg) ++ (mid ++ ctg ++ post) from by
      simp [List.append_assoc]]
    exact List.drop_left' h1
  have hstartC : ciStarts closeTag ((mid ++ ctg ++ post).drop mid.length) = true := by
    rw [List.append_assoc mid ctg post, List.drop_left]
    exact ciStarts_of_map_toLower closeTag ctg post hc
  have hfc : findCI closeTag (mid ++ ctg ++ post) = some mid.length :=
    findCI_first closeTag _ mid.length hstartC hmid
  have htakeMid : (mid ++ ctg ++ post).take mid.length = mid := by
    rw [List.append_assoc mid ctg post]
    exact List.take_left mid _
  have htakePre : (pre ++ otg ++ mid ++ ctg ++ post).take pre.length = pre := by
    rw [hassoc]
    exact List.take_left pre _
  have hdropEnd : (pre ++ otg ++ mid ++ ctg ++ post).drop (pre.length + 7 + mid.length + 8)
      = post := by
    have h1 : (pre ++ (otg ++ (mid ++ ctg))).length = pre.length + 7 + mid.length + 8 := by
      simp only [List.length_append, holen, hclen]
      omega
    rw [show pre ++ otg ++ mid ++ ctg ++ post = (pre ++ (otg ++ (mid ++ ctg))) ++ post from by
      simp [List.append_assoc]]
    exact List.drop_left' h1
  have hpc : parseCore (pre ++ otg ++ mid ++ ctg ++ post) = some (mid, pre ++ post) := by
    simp only [parseCore, hfo, hdrop7, hfc, htakeMid, htakePre, hdropEnd]
  exact parseThinkingResponse_tag _ mid (pre ++ post) hpc

/-- C2 (witness): `"<think>A</think>B"` yields thinking `"A"`, response
`"B"` and `hasThinking = true`. -/
theorem c2_witness :
    parseThinkingResponse "<think>A</think>B"
      = { thinking := some "A", response := "B", hasThinking := true } := by
  have h := c2_parseThinkingResponse_think_block [] "<think>".toList "A".toList
    "</think>".toList "B".toList rfl rfl
    (by intro i hi; exact absurd hi (Nat.not_lt_zero i))
    (by decide)
  have e1 : String.mk (([] : List Char) ++ "<think>".toList ++ "A".toList ++ "</think>".toList
      ++ "B".toList) = "<think>A</think>B" := by decide
  rw [e1] at h
  rw [h]
  decide

theorem loadDocuments_eq (results : List (Option (List Doc))) :
    loadDocuments results = (results.filterMap id).flatten := by
  have aux : ∀ (rs : List (Option (List Doc))) (acc : List Doc),
      rs.foldl (fun acc r => match r with | some ds => acc ++ ds | none => acc) acc
        = acc ++ (rs.filterMap id).flatten := by
    intro rs
    induction rs with
    | nil => intro acc; simp
    | cons r rs ih =>
      intro acc
      cases r with
      | none =>
        show rs.foldl _ acc = _
        rw [ih acc]
        simp
      | some ds =>
        show rs.foldl _ (acc ++ ds) = _
        rw [ih (acc ++ ds)]
        simp
  exact aux results []

/-- C6: the per-URL loading loop keeps exactly the documents of the
successful URLs (failed fetches are skipped without aborting the batch),
and a run in which every URL fails — reaching the loop with zero loaded
documents — makes `initializeRAG` fail with the no-content error. -/
theorem c6_ingestion_soft_errors :
    (∀ results : List (Option (List Doc)),
      loadDocuments results = (results.filterMap id).flatten) ∧
    (∀ (host port uri : String) (w : World) (s : ServerState),
      s.isInitializing = false → w.ollamaOk = true → (∀ r ∈ w.fetch, r = none) →
      (initializeRAG host port uri w s).2 = Except.error noDocsMsg) := by
  constructor
  · exact loadDocuments_eq
  · intro host port uri w s hs hw hall
    have hfm : w.fetch.filterMap id = [] := by
      rw [List.filterMap_eq_nil_iff]
      intro r hr
      rw [hall r hr]
      rfl
    have hdocs : loadDocuments w.fetch = [] := by
      rw [loadDocuments_eq, hfm]
      rfl
    simp [initializeRAG, hs, hw, hdocs]

/-- C6 (witness): a run whose only URL fails yields the no-content error. -/
theorem c6_witness :
    (initializeRAG "h" "p" "u"
      { ollamaOk := true, fetch := [none], splitDocs := fun l => l, genId := fun _ => "g",
        neo4jOk := true }
      { vectorstore := none, retriever := none, chatModel := none, isInitializing := false,
        initializationError := none }).2
      = Except.error noDocsMsg := by
  refine c6_ingestion_soft_errors.2 "h" "p" "u" _ _ rfl rfl ?_
  intro r hr
  simpa using hr

theorem objSet_forall_values (P : JValue → Bool) (m : JObject) (k : String) (v : JValue)
    (hm : ∀ q ∈ m, P q.2 = true) (hv : P v = true) :
    ∀ q ∈ objSet m k v, P q.2 = true := by
  intro q hq
  unfold objSet at hq
  by_cases ha : m.any (fun p => p.1 == k) = true
  · rw [if_pos ha] at hq
    obtain ⟨p, hp, hfq⟩ := List.mem_map.mp hq
    by_cases hpk : (p.1 == k) = true
    · rw [if_pos hpk] at hfq
      rw [← hfq]
      exact hv
    · rw [if_neg hpk] at hfq
      rw [← hfq]
      exact hm p hp
  · rw [if_neg ha] at hq
    rcases List.mem_append.mp hq with h | h
    · exact hm q h
    · rw [List.mem_singleton.mp h]
      exact hv

theorem objGet_mem (m : JObject) (k : String) (v : JValue) (h : objGet m k = some v) :
    ∃ p ∈ m, p.2 = v := by
  unfold objGet at h
  cases hf : m.find? (fun p => p.1 == k) with
  | none => rw [hf] at h; cases h
  | some p =>
    rw [hf] at h
    exact ⟨p, List.mem_of_find?_eq_some hf, by simpa using h⟩

theorem jsOrD_objGet (P : JValue → Bool) (m : JObject) (k : String) (d : JValue)
    (hm : ∀ q ∈ m, P q.2 = true) (hd : P d = true) :
    P (jsOrD (objGet m k) d) = true := by
  cases hg : objGet m k with
  | none => simpa [jsOrD] using hd
  | some w =>
    obtain ⟨p, hp, hpv⟩ := objGet_mem m k w hg
    cases ht : truthy w with
    | false => simpa [jsOrD, ht] using hd
    | true =>
      simp only [jsOrD, ht, if_true]
      rw [← hpv]
      exact hm p hp

theorem cleanFieldsUtils_values (md : JObject) :
    ∀ q ∈ cleanFieldsUtils md, isPrimitiveType q.2 = true := by
  have aux : ∀ (md acc : JObject), (∀ q ∈ acc, isPrimitiveType q.2 = true) →
      ∀ q ∈ md.foldl utilsFieldStep acc, isPrimitiveType q.2 = true := by
    intro md
    induction md with
    | nil => intro acc hacc q hq; exact hacc q hq
    | cons p ps ih =>
      intro acc hacc q hq
      refine ih (utilsFieldStep acc p) ?_ q hq
      by_cases hp : isPrimitiveType p.2 = true
      · rw [utilsFieldStep, if_pos hp]
        exact objSet_forall_values _ acc p.1 p.2 hacc hp
      · rw [utilsFieldStep, if_neg hp]
        exact objSet_forall_values _ acc p.1 _ hacc rfl
  intro q hq
  exact aux md [] (by intro q hq; cases hq) q hq

theorem cleanFieldsInline_values (md : JObject) :
    ∀ q ∈ cleanFieldsInline md, isStrNumBool q.2 = true := by
  have aux : ∀ (md acc : JObject), (∀ q ∈ acc, isStrNumBool q.2 = true) →
      ∀ q ∈ md.foldl inlineFieldStep acc, isStrNumBool q.2 = true := by
    intro md
    induction md with
    | nil => intro acc hacc q hq; exact hacc q hq
    | cons p ps ih =>
      intro acc hacc q hq
      refine ih (inlineFieldStep acc p) ?_ q hq
      cases hv : p.2 with
      | str s => rw [inlineFieldStep, hv]; exact objSet_forall_values _ acc p.1 _ hacc rfl
      | num n => rw [inlineFieldStep, hv]; exact objSet_forall_values _ acc p.1 _ hacc rfl
      | bool b => rw [inlineFieldStep, hv]; exact objSet_forall_values _ acc p.1 _ hacc rfl
      | null => rw [inlineFieldStep, hv]; exact hacc
      | arr xs => rw [inlineFieldStep, hv]; exact objSet_forall_values _ acc p.1 _ hacc rfl
      | obj fs => rw [inlineFieldStep, hv]; exact objSet_forall_values _ acc p.1 _ hacc rfl
  intro q hq
  exact aux md [] (by intro q hq; cases hq) q hq

theorem cleanDocumentMetadata_values (nowMs : Nat) (nowIso : String) (docs : List Doc) :
    ∀ d ∈ cleanDocumentMetadata nowMs nowIso docs, ∀ q ∈ d.metadata, isPrimitiveType q.2 = true := by
  intro d hd
  rw [cleanDocumentMetadata] at hd
  obtain ⟨ip, _, hd'⟩ := List.mem_map.mp hd
  intro q hq
  rw [← hd'] at hq
  simp only at hq
  have h0 := cleanFieldsUtils_values ip.2.metadata
  have h1 := objSet_forall_values isPrimitiveType (cleanFieldsUtils ip.2.metadata) "source"
    _ h0 (jsOrD_objGet isPrimitiveType _ "source" (JValue.str "unknown") h0 rfl)
  have h2 := objSet_forall_values isPrimitiveType _ "chunk_id" _ h1
    (jsOrD_objGet isPrimitiveType _ "chunk_id"
      (JValue.str ("chunk_" ++ toString ip.1 ++ "_" ++ toString nowMs)) h1 rfl)
  have h3 := objSet_forall_values isPrimitiveType _ "created_at" (JValue.str nowIso) h2 rfl
  have h4 := objSet_forall_values isPrimitiveType _ "content_length"
    (JValue.num (Int.ofNat ip.2.pageContent.length)) h3 rfl
  exact h4 q hq

theorem objGet_inlineFold (md : JObject) (k : String) :
    ∀ acc : JObject, (md.map Prod.fst).Nodup →
      objGet (md.foldl inlineFieldStep acc) k
        = por ((objGet md k).bind cleanValInline) (objGet acc k) := by
  induction md with
  | nil =>
    intro acc _
    simp [objGet_nil, por]
  | cons p ps ih =>
    intro acc hnd
    rw [List.map_cons, List.nodup_cons] at hnd
    show objGet (ps.foldl inlineFieldStep (inlineFieldStep acc p)) k = _
    rw [ih (inlineFieldStep acc p) hnd.2]
    by_cases hk : p.1 = k
    · have hgps : objGet ps k = none := by
        apply objGet_eq_none_of_any_false
        rw [List.any_eq_false]
        intro x hx
        intro hbeq
        apply hnd.1
        rw [hk]
        have : x.1 = k := by simpa using hbeq
        rw [← this]
        exact List.mem_map_of_mem Prod.fst hx
      rw [hgps, objGet_cons, if_pos hk]
      cases hv : p.2 with
      | str s => simp [inlineFieldStep, hv, cleanValInline, objGet_objSet, hk, por]
      | num n => simp [inlineFieldStep, hv, cleanValInline, objGet_objSet, hk, por]
      | bool b => simp [inlineFieldStep, hv, cleanValInline, objGet_objSet, hk, por]
      | null => simp [inlineFieldStep, hv, cleanValInline, por]
      | arr xs => simp [inlineFieldStep, hv, cleanValInline, objGet_objSet, hk, por]
      | obj fs => simp [inlineFieldStep, hv, cleanValInline, objGet_objSet, hk, por]
    · have hstep : objGet (inlineFieldStep acc p) k = objGet acc k := by
        cases hv : p.2 with
        | str s => rw [inlineFieldStep, hv, objGet_objSet, if_neg hk]
        | num n => rw [inlineFieldStep, hv, objGet_objSet, if_neg hk]
        | bool b => rw [inlineFieldStep, hv, objGet_objSet, if_neg hk]
        | null => rw [inlineFieldStep, hv]
        | arr xs => rw [inlineFieldStep, hv, objGet_objSet, if_neg hk]
        | obj fs => rw [inlineFieldStep, hv, objGet_objSet, if_neg hk]
      rw [hstep, objGet_cons, if_neg hk]

theorem jsonStringify_arr_ne_empty (xs : List JValue) : jsonStringify (JValue.arr xs) ≠ "" := by
  intro h
  have hl := congrArg String.length h
  rw [jsonStringify, String.length_append, String.length_append] at hl
  have h1 : ("[" : String).length = 1 := rfl
  have h2 : ("]" : String).length = 1 := rfl
  have h3 : ("" : String).length = 0 := rfl
  omega

theorem jsonStringify_obj_ne_empty (fs : List (String × JValue)) :
    jsonStringify (JValue.obj fs) ≠ "" := by
  intro h
  have hl := congrArg String.length h
  rw [jsonStringify, String.length_append, String.length_append] at hl
  have h1 : ("\x7b" : String).length = 1 := rfl
  have h2 : ("\x7d" : String).length = 1 := rfl
  have h3 : ("" : String).length = 0 := rfl
  omega

theorem inlineClean_values (genId : String) (doc : Doc)
    (hnd : (doc.metadata.map Prod.fst).Nodup) :
    ∀ q ∈ (inlineCleanDoc genId doc).metadata, isStrNumBool q.2 = true := by
  intro q hq
  rw [inlineCleanDoc] at hq
  simp only at hq
  have h0 := cleanFieldsInline_values doc.metadata
  have hlook : objGet (cleanFieldsInline doc.metadata) "source"
      = (objGet doc.metadata "source").bind cleanValInline := by
    show objGet (doc.metadata.foldl inlineFieldStep []) "source" = _
    rw [objGet_inlineFold doc.metadata "source" [] hnd, objGet_nil, por_none_right]
  have hsrc : isStrNumBool (jsOrD (objGet (cleanFieldsInline doc.metadata) "source")
      (jsOrD (objGet doc.metadata "source") (JValue.str "unknown"))) = true := by
    rw [hlook]
    cases hg : objGet doc.metadata "source" with
    | none => rfl
    | some w =>
      cases w with
      | str s => cases ht : truthy (JValue.str s) <;> simp [jsOrD, cleanValInline, ht, isStrNumBool]
      | num n => cases ht : truthy (JValue.num n) <;> simp [jsOrD, cleanValInline, ht, isStrNumBool]
      | bool b => cases ht : truthy (JValue.bool b) <;> simp [jsOrD, cleanValInline, ht, isStrNumBool]
      | null => rfl
      | arr xs =>
        have hne := jsonStringify_arr_ne_empty xs
        simp [jsOrD, cleanValInline, truthy, isStrNumBool, bne_iff_ne, hne]
      | obj fs =>
        have hne := jsonStringify_obj_ne_empty fs
        simp [jsOrD, cleanValInline, truthy, isStrNumBool, bne_iff_ne, hne]
  have h1 := objSet_forall_values isStrNumBool (cleanFieldsInline doc.metadata) "source"
    (jsOrD (objGet (cleanFieldsInline doc.metadata) "source")
      (jsOrD (objGet doc.metadata "source") (JValue.str "unknown"))) h0 hsrc
  have h2 := objSet_forall_values isStrNumBool _ "id"
    (jsOrD (objGet (objSet (cleanFieldsInline doc.metadata) "source"
        (jsOrD (objGet (cleanFieldsInline doc.metadata) "source")
          (jsOrD (objGet doc.metadata "source") (JValue.str "unknown")))) "id")
      (JValue.str genId)) h1
    (jsOrD_objGet isStrNumBool _ "id" (JValue.str genId) h1 rfl)
  exact h2 q hq

/-- C7 (counterexample): `cleanDocumentMetadata` keeps an array-of-numbers
metadata value as an array (its `isPrimitiveType` accepts arrays of
primitives), so the resulting map is not restricted to values of type
string, number or boolean as the claim states. -/
theorem c7_counterexample :
    ¬ (∀ d ∈ cleanDocumentMetadata 0 "t"
          [{ pageContent := "c", metadata := [("a", JValue.arr [JValue.num 1])] }],
        ∀ q ∈ d.metadata, isStrNumBool q.2 = true) := by
  decide

/-- C7 (amended): after `Neo4jUtils.cleanDocumentMetadata` every metadata
value is primitive in the code's own sense — string, number, boolean, null
or a (possibly nested) array of such values; after the inline cleaning
step of `initializeRAG` (whose metadata objects have no duplicate keys)
every metadata value is strictly a string, number or boolean. Every other
source value is dropped or serialized to a string. -/
theorem c7_metadata_primitives_amended :
    (∀ (nowMs : Nat) (nowIso : String) (docs : List Doc),
      ∀ d ∈ cleanDocumentMetadata nowMs nowIso docs,
        ∀ q ∈ d.metadata, isPrimitiveType q.2 = true) ∧
    (∀ (genId : String) (doc : Doc), (doc.metadata.map Prod.fst).Nodup →
      ∀ q ∈ (inlineCleanDoc genId doc).metadata, isStrNumBool q.2 = true) :=
  ⟨cleanDocumentMetadata_values, inlineClean_values⟩

/-- C7 (witness): concrete sanitizations — the utility keeps a null value
(primitive for Neo4j), the inline step serializes an array and keeps a
string source, all resulting values primitive in the amended sense. -/
theorem c7_witness :
    ((cleanDocumentMetadata 3 "ts" [{ pageContent := "cc", metadata := [("a", JValue.null)] }]).all
        (fun d => d.metadata.all (fun q => isPrimitiveType q.2)) = true)
    ∧ ((inlineCleanDoc "gid"
        { pageContent := "cc",
          metadata := [("a", JValue.arr [JValue.num 1]), ("source", JValue.str "s")] }).metadata.all
        (fun q => isStrNumBool q.2) = true) := by
  constructor
  · rw [List.all_eq_true]
    intro d hd
    rw [List.all_eq_true]
    intro q hq
    exact c7_metadata_primitives_amended.1 3 "ts" _ d hd q hq
  · rw [List.all_eq_true]
    intro q hq
    exact c7_metadata_primitives_amended.2 "gid" _ (by decide) q hq

/-- C8: (1) a call to `initializeRAG` while `isInitializing` is set
returns immediately with the state unchanged (no re-run); (2) starting
from a non-initializing state, the `finally` step leaves `isInitializing`
cleared on every path, success or failure; (3) once `vectorstore` is
non-null the initialize endpoint short-circuits with the
already-initialized acknowledgment without invoking `initializeRAG`. -/
theorem c8_initialization_guard :
    (∀ (host port uri : String) (w : World) (s : ServerState),
      s.isInitializing = true → initializeRAG host port uri w s = (s, Except.ok ())) ∧
    (∀ (host port uri : String) (w : World) (s : ServerState),
      s.isInitializing = false → (initializeRAG host port uri w s).1.isInitializing = false) ∧
    (∀ (host port uri : String) (w : World) (s : ServerState),
      s.vectorstore.isSome = true → initializeHandler host port uri w s = (s, InitHttp.alreadyOk)) := by
  refine ⟨?_, ?_, ?_⟩
  · intro host port uri w s h
    simp [initializeRAG, h]
  · intro host port uri w s h
    simp only [initializeRAG, h, Bool.false_eq_true, if_false]
    split
    · rfl
    · split
      · rfl
      · split
        · rfl
        · rfl
  · intro host port uri w s h
    simp [initializeHandler, h]

/-- C8 (witness): concrete runs — a re-entrant call is a no-op on the
state, a failing run still clears the flag, and a ready server
acknowledges without re-initializing. -/
theorem c8_witness :
    initializeRAG "h" "p" "u"
        { ollamaOk := true,
          fetch := [],
          splitDocs := fun l => l,
          genId := fun _ => "g",
          neo4jOk := true }
        { vectorstore := none,
          retriever := none,
          chatModel := none,
          isInitializing := true,
          initializationError := none }
      = ({ vectorstore := none,
           retriever := none,
           chatModel := none,
           isInitializing := true,
           initializationError := none }, Except.ok ())
    ∧ (initializeRAG "h" "p" "u"
        { ollamaOk := false,
          fetch := [],
          splitDocs := fun l => l,
          genId := fun _ => "g",
          neo4jOk := true }
        { vectorstore := none,
          retriever := none,
          chatModel := none,
          isInitializing := false,
          initializationError := none }).1.isInitializing = false
    ∧ initializeHandler "h" "p" "u"
        { ollamaOk := true,
          fetch := [],
          splitDocs := fun l => l,
          genId := fun _ => "g",
          neo4jOk := true }
        { vectorstore := some [],
          retriever := some (),
          chatModel := some (),
          isInitializing := false,
          initializationError := none }
      = ({ vectorstore := some [],
           retriever := some (),
           chatModel := some (),
           isInitializing := false,
           initializationError := none }, InitHttp.alreadyOk) :=
  ⟨c8_initialization_guard.1 "h" "p" "u" _ _ rfl,
   c8_initialization_guard.2.1 "h" "p" "u" _ _ rfl,
   c8_initialization_guard.2.2 "h" "p" "u" _ _ rfl⟩

/-- C10: for both chat endpoints, a request body whose `topic`
(respectively `question`) field is absent or bound to any falsy JSON value
(empty string, 0, false, null) is rejected with the 400 bad-request
response, and the chat chain is not invoked — exactly the behavior for a
missing field, since `!topic` does not distinguish the two. -/
theorem c10_falsy_field_rejected :
    (∀ (body : JObject) (s : ServerState) (modelOut : String),
      truthyOpt (objGet body "topic") = false →
      chatBeforeRagHandler body s modelOut = (ChatHttp.badRequest "Topic is required", false)) ∧
    (∀ (body : JObject) (s : ServerState) (modelOut : String),
      truthyOpt (objGet body "question") = false →
      chatWithRagHandler body s modelOut = (ChatHttp.badRequest "Question is required", false)) := by
  constructor
  · intro body s modelOut h
    simp [chatBeforeRagHandler, h]
  · intro body s modelOut h
    simp [chatWithRagHandler, h]

/-- C10 (witness): a present-but-empty topic, an absent topic, and a
zero-valued question are all rejected identically without invoking the
chain. -/
theorem c10_witness :
    chatBeforeRagHandler [("topic", JValue.str "")]
        { vectorstore := none,
          retriever := none,
          chatModel := some (),
          isInitializing := false,
          initializationError := none } "out"
      = (ChatHttp.badRequest "Topic is required", false)
    ∧ chatBeforeRagHandler []
        { vectorstore := none,
          retriever := none,
          chatModel := some (),
          isInitializing := false,
          initializationError := none } "out"
      = (ChatHttp.badRequest "Topic is required", false)
    ∧ chatWithRagHandler [("question", JValue.num 0)]
        { vectorstore := some [],
          retriever := some (),
          chatModel := some (),
          isInitializing := false,
          initializationError := none } "out"
      = (ChatHttp.badRequest "Question is required", false) :=
  ⟨c10_falsy_field_rejected.1 _ _ "out" rfl,
   c10_falsy_field_rejected.1 _ _ "out" rfl,
   c10_falsy_field_rejected.2 _ _ "out" rfl⟩

/-- C9 (witness): two ancestors bind the key `K`; the farther one (walked
last) wins over both the nearer one and the defaults. -/
theorem c9_witness :
    objGet (loadParentConfigs "karl-chat" getDefaults
      [FileResult.parsed (JValue.obj [("K", JValue.str "near")]),
       FileResult.parsed (JValue.obj [("K", JValue.str "far")])]) "K"
      = some (JValue.str "far") :=
  c9_parent_far_overrides "karl-chat" getDefaults _ "K" 1
    (FileResult.parsed (JValue.obj [("K", JValue.str "far")])) (JValue.str "far")
    (by omega) rfl rfl
    (by
      intro i f h1 h5 hg
      interval_cases i <;> simp at hg)
